import Mathlib

/-!
Verification of the fast-langgraph core against its specification.

The development embeds, as executable Lean definitions:

* the `LastValue` channel of `src/python/langgraph_rs/__init__.py`
  (the Python fallback implementation, which is the complete
  implementation of that class present in the repository sources);
* the bulk-synchronous Pregel engine (channels + version ledger +
  checkpoint + scheduler + superstep loop), modelled from the spec
  because the production engine is the Rust extension
  (`RustExtension("langgraph_rs.langgraph_rs")` in `setup.py`) whose
  sources are not part of the Python tree; the Python `Pregel.invoke`
  and `Checkpoint.to_json` fallbacks are explicit placeholders;
* the function-patching shim of `src/fast_langgraph/shim.py`.

Python `None` is modelled as `Option.none`; a raised exception is
modelled as an `Except.error` result paired with the state the object
holds at the moment the exception propagates.
-/

/-! ## Association lists (model of Python `dict` keyed lookups) -/

/-- Lookup in an association list, first match wins (Python `d[k]` /
`k in d`). -/
def lookupAL {κ ν : Type} [DecidableEq κ] : List (κ × ν) → κ → Option ν
  | [], _ => none
  | kv :: rest, k => if kv.1 = k then some kv.2 else lookupAL rest k

/-- Remove every binding of key `k`. -/
def eraseKey {κ ν : Type} [DecidableEq κ] : List (κ × ν) → κ → List (κ × ν)
  | [], _ => []
  | kv :: rest, k => if kv.1 = k then eraseKey rest k else kv :: eraseKey rest k

/-- Python `d[k] = v`: bind `k` to `v`, removing any previous binding. -/
def insertAL {κ ν : Type} [DecidableEq κ] (k : κ) (v : ν) (l : List (κ × ν)) :
    List (κ × ν) :=
  (k, v) :: eraseKey l k

/-- Keys are pairwise distinct (Python dicts cannot hold duplicate keys). -/
def nodupKeysB {κ ν : Type} [DecidableEq κ] : List (κ × ν) → Bool
  | [] => true
  | kv :: rest => (lookupAL rest kv.1).isNone && nodupKeysB rest

/-- Lookup with a default value. -/
def lookD {κ ν : Type} [DecidableEq κ] (l : List (κ × ν)) (k : κ) (d : ν) : ν :=
  (lookupAL l k).getD d

/-! ## The `LastValue` channel

Embedding of class `LastValue` from `src/python/langgraph_rs/__init__.py`
(lines 77-116).  The Python object stores the proposed value in
`self.value`, initialised to `None`; `None` is `Option.none` here, so the
stored value has type `Option V` and a proposed value (which may itself be
Python `None`) also has type `Option V`. -/

/-- The channel error taxonomy of spec §7 that the `LastValue` code can
raise: `ValueError("LastValue channel can only receive one value per
update")` is `InvalidUpdate`, `Exception("Channel is empty")` is `Empty`. -/
inductive ChannelErr : Type
  | invalidUpdate
  | empty
deriving DecidableEq, Repr

/-- State of a Python `LastValue` channel object: the constructor
arguments `typ` (opaque, never inspected) and `key`, and the mutable
`self.value`. -/
structure LastValue (V : Type) : Type where
  typ : Option String
  key : String
  value : Option V
deriving DecidableEq, Repr

/-- `LastValue.update(self, values)`: zero values returns `False` without
touching `self.value`; two or more raise before any mutation; exactly one is
stored and `True` is returned.  The first component is the object state
when the call returns or the exception propagates. -/
def LastValue.update {V : Type} (c : LastValue V) (values : List (Option V)) :
    LastValue V × Except ChannelErr Bool :=
  match values with
  | [] => (c, .ok false)
  | [v] => ({ c with value := v }, .ok true)
  | _ :: _ :: _ => (c, .error .invalidUpdate)

/-- `LastValue.get(self)`: raises `Empty` when `self.value is None`,
otherwise returns the stored value. -/
def LastValue.get {V : Type} (c : LastValue V) : Except ChannelErr V :=
  match c.value with
  | none => .error .empty
  | some v => .ok v

/-- `LastValue.is_available(self)`: `self.value is not None`. -/
def LastValue.is_available {V : Type} (c : LastValue V) : Bool :=
  c.value.isSome

/-- `LastValue.checkpoint(self)`: returns `self.value`. -/
def LastValue.checkpoint {V : Type} (c : LastValue V) : Option V :=
  c.value

/-- `LastValue.from_checkpoint(cls, checkpoint)`: builds `cls(None)`
(so `typ = None`, `key = ""`) and assigns `instance.value = checkpoint`. -/
def LastValue.from_checkpoint {V : Type} (ck : Option V) : LastValue V :=
  { typ := none, key := "", value := ck }

/-- A fresh `LastValue(typ, key)` object: `self.value = None`. -/
def LastValue.fresh {V : Type} (typ : Option String) (key : String) :
    LastValue V :=
  { typ := typ, key := key, value := none }

/-- Run a sequence of `update` calls against a channel; a call that
raises leaves the object unchanged (the exception propagates before any
mutation) and the history continues with the next call. -/
def applyHistory {V : Type} (c : LastValue V) :
    List (List (Option V)) → LastValue V
  | [] => c
  | vs :: rest => applyHistory (c.update vs).1 rest

/-- The value proposed by the most recent successful single-entry
`update` call of a history, starting from a given stored value. -/
def lastWriteFrom {V : Type} (start : Option V)
    (h : List (List (Option V))) : Option V :=
  h.foldl (fun acc vs => match vs with | [v] => v | _ => acc) start

/-- The value proposed by the most recent successful single-entry
`update` call of a history, `none` when there is no such call. -/
def lastWrite {V : Type} (h : List (List (Option V))) : Option V :=
  lastWriteFrom none h

/-! ## The bulk-synchronous engine

Modelled from the spec: the production executor and checkpoint are the
Rust extension declared in `setup.py`, which is not part of the Python
source tree; the Python `Pregel.invoke` fallback is a placeholder that
returns its input unchanged.  The model follows spec §2-§4: channels with
the two canonical merge policies over integer payloads, the version
ledger, checkpoints created after every successful superstep, trigger
computation from versions vs. versions-seen, deterministic dispatch
order, and the step-limited executor loop. -/

/-- A value observable through a channel snapshot: a last-value channel
yields its stored integer, an accumulating channel yields its ordered
sequence. -/
inductive CVal : Type
  | intVal (n : Int)
  | listVal (xs : List Int)
deriving DecidableEq, Repr

/-- Modelled from the spec (§4.1): runtime state of a channel under one
of the two canonical merge policies: last-value (absent until first
write) or accumulating (durable ordered sequence). -/
inductive ChannelState : Type
  | last (v : Option Int)
  | topic (xs : List Int)
deriving DecidableEq, Repr

/-- Modelled from the spec (§4.1): `get` on a channel; `none` is the
`Empty` outcome of a never-written last-value channel. -/
def chanGet : ChannelState → Option CVal
  | .last none => none
  | .last (some x) => some (.intVal x)
  | .topic xs => some (.listVal xs)

/-- Modelled from the spec (§4.1): `update` applies one superstep's
ordered write group to a channel and reports whether the value changed;
a last-value channel rejects two or more proposed values with
`InvalidUpdate`, an accumulating channel appends all proposed values in
dispatch order. -/
def chanUpdate : ChannelState → List Int →
    Except ChannelErr (ChannelState × Bool)
  | .last v, [] => .ok (.last v, false)
  | .last _, [x] => .ok (.last (some x), true)
  | .last _, _ :: _ :: _ => .error .invalidUpdate
  | .topic xs, ws => .ok (.topic (xs ++ ws), !ws.isEmpty)

/-- A computation node: its subscribed channel names and its body, an
opaque callable from an input snapshot to proposed `(channel, value)`
writes. -/
structure PNode : Type where
  subs : List String
  body : List (String × CVal) → List (String × Int)

/-- Static graph metadata: nodes in deterministic (name-sorted) dispatch
order, and the channel application order used by the write applicator. -/
structure PGraph : Type where
  nodes : List (String × PNode)
  channels : List String

/-- Modelled from the spec (§3): an immutable checkpoint carrying the
channel values, the version table, the versions-seen table, a monotonic
sequence `id`, and the `parent_id` of the checkpoint it was derived
from. -/
structure Checkpoint : Type where
  id : Nat
  channel_values : List (String × ChannelState)
  channel_versions : List (String × Nat)
  versions_seen : List (String × List (String × Nat))
  parent_id : Option Nat
deriving DecidableEq, Repr

/-- Live engine state: channel states, version ledger, versions-seen
table, the checkpoint history (most recent first) and the next checkpoint
sequence id. -/
structure EngineState : Type where
  chans : List (String × ChannelState)
  versions : List (String × Nat)
  seen : List (String × List (String × Nat))
  ckpts : List Checkpoint
  nextId : Nat
deriving DecidableEq, Repr

/-- Modelled from the spec (§4.3): a node is ready when some subscribed
channel's current version exceeds the version the node last saw; the
bootstrap round falls out of initial values carrying version 1 against
seen-version 0.  Dispatch order is the deterministic node order. -/
def readyNodes (g : PGraph) (st : EngineState) : List (String × PNode) :=
  g.nodes.filter fun p =>
    p.2.subs.any fun c =>
      decide (lookD (lookD st.seen p.1 []) c 0 < lookD st.versions c 0)

/-- Modelled from the spec (§4.4): at dispatch, record for every ready
node the pre-superstep version of every channel it reads. -/
def markSeen (ready : List (String × PNode)) (versions : List (String × Nat))
    (seen : List (String × List (String × Nat))) :
    List (String × List (String × Nat)) :=
  ready.foldl
    (fun sn p =>
      insertAL p.1
        (p.2.subs.foldl (fun m c => insertAL c (lookD versions c 0) m)
          (lookD sn p.1 []))
        sn)
    seen

/-- Modelled from the spec (§4.5 ReadingInputs): a node's input snapshot
holds the value of every subscribed channel that is available; an `Empty`
channel is simply absent from the snapshot. -/
def snapshotOf (chans : List (String × ChannelState)) (nd : PNode) :
    List (String × CVal) :=
  nd.subs.filterMap fun c =>
    match lookupAL chans c with
    | some cs => (chanGet cs).map fun v => (c, v)
    | none => none

/-- Writes proposed by the ready nodes, concatenated in dispatch order. -/
def collectWrites (ready : List (String × PNode))
    (chans : List (String × ChannelState)) : List (String × Int) :=
  ready.foldl (fun acc p => acc ++ p.2.body (snapshotOf chans p.2)) []

/-- Modelled from the spec (§4.4): group the superstep's writes by
channel preserving dispatch order, apply each channel's `update` once,
and bump the channel's version by exactly 1 when the value changed; an
`InvalidUpdate` fails the whole superstep. -/
def applyWrites : List String → List (String × Int) →
    List (String × ChannelState) → List (String × Nat) →
    Except ChannelErr (List (String × ChannelState) × List (String × Nat))
  | [], _, chans, versions => .ok (chans, versions)
  | c :: rest, writes, chans, versions =>
    let ws := (writes.filter fun w => decide (w.1 = c)).map (·.2)
    if ws.isEmpty then applyWrites rest writes chans versions
    else
      match lookupAL chans c with
      | none => applyWrites rest writes chans versions
      | some cs =>
        match chanUpdate cs ws with
        | .error e => .error e
        | .ok (cs', changed) =>
          applyWrites rest writes (insertAL c cs' chans)
            (if changed then insertAL c (lookD versions c 0 + 1) versions
             else versions)

/-- Modelled from the spec (§4.5): one superstep: read inputs, dispatch
the ready nodes (marking versions seen), collect and apply their writes,
then take a checkpoint tagged with the next sequence id and the previous
checkpoint's id as parent.  A failed write application aborts the
superstep with no checkpoint. -/
def superstep (g : PGraph) (st : EngineState) : Except ChannelErr EngineState :=
  let ready := readyNodes g st
  let seen' := markSeen ready st.versions st.seen
  let writes := collectWrites ready st.chans
  match applyWrites g.channels writes st.chans st.versions with
  | .error e => .error e
  | .ok (chans', versions') =>
    .ok
      { chans := chans'
        versions := versions'
        seen := seen'
        ckpts :=
          { id := st.nextId
            channel_values := chans'
            channel_versions := versions'
            versions_seen := seen'
            parent_id := st.ckpts.head?.map (·.id) } :: st.ckpts
        nextId := st.nextId + 1 }

/-- Execute up to `n` supersteps, stopping early when no node is ready or
a superstep fails (a failed superstep leaves the pre-superstep state). -/
def runSteps (g : PGraph) : EngineState → Nat → EngineState
  | st, 0 => st
  | st, n + 1 =>
    if (readyNodes g st).isEmpty then st
    else
      match superstep g st with
      | .ok st' => runSteps g st' n
      | .error _ => st

/-- Result of a step-limited run (spec §4.3 termination rules). -/
inductive Outcome : Type
  | done (st : EngineState)
  | stepLimitExceeded (st : EngineState)
  | failed (e : ChannelErr) (st : EngineState)
deriving DecidableEq, Repr

/-- Modelled from the spec (§4.3, §6): run supersteps until no node is
ready; exceeding the configured maximum superstep count is fatal
(`StepLimitExceeded`), surfacing the state whose latest checkpoint is
the resumable one. -/
def invoke (g : PGraph) : EngineState → Nat → Outcome
  | st, 0 =>
    if (readyNodes g st).isEmpty then .done st else .stepLimitExceeded st
  | st, n + 1 =>
    if (readyNodes g st).isEmpty then .done st
    else
      match superstep g st with
      | .ok st' => invoke g st' n
      | .error e => .failed e st

/-- The engine state an outcome carries. -/
def outState : Outcome → EngineState
  | .done st => st
  | .stepLimitExceeded st => st
  | .failed _ st => st

/-- Whether an outcome is `StepLimitExceeded`. -/
def isStepLimit : Outcome → Bool
  | .stepLimitExceeded _ => true
  | _ => false

/-- The checkpoint chain is well formed: the oldest checkpoint has no
parent, and every later checkpoint's `parent_id` is the id of its
predecessor, with strictly increasing ids (the list is most recent
first). -/
def ckptChainOk : List Checkpoint → Bool
  | [] => true
  | c :: rest =>
    (match rest with
     | [] => decide (c.parent_id = none)
     | d :: _ => decide (c.parent_id = some d.id) && decide (d.id < c.id))
    && ckptChainOk rest

/-- Invariant tying the chain to the next sequence id. -/
def idChainInv (st : EngineState) : Bool :=
  ckptChainOk st.ckpts &&
    (match st.ckpts with
     | [] => true
     | c :: _ => decide (c.id < st.nextId))

/-! ## The scenario of spec §8

Channels `A` (last-value, initial `0`) and `B` (accumulating); node `N1`
subscribes to `A` and writes `B += A.get() + 1`; node `N2` subscribes to
`B` and writes `A = len(B)`. -/

/-- Node `N1`: reads `A`, proposes the write `("B", A + 1)`. -/
def nodeN1 : PNode where
  subs := ["A"]
  body snap :=
    match lookupAL snap "A" with
    | some (.intVal a) => [("B", a + 1)]
    | _ => []

/-- Node `N2`: reads `B`, proposes the write `("A", len B)`. -/
def nodeN2 : PNode where
  subs := ["B"]
  body snap :=
    match lookupAL snap "B" with
    | some (.listVal xs) => [("A", (xs.length : Int))]
    | _ => []

/-- The scenario graph; nodes in name order, channels in name order. -/
def scenarioGraph : PGraph where
  nodes := [("N1", nodeN1), ("N2", nodeN2)]
  channels := ["A", "B"]

/-- The scenario's start state: `A` carries its initial value `0`
(version 1), `B` is empty (version 0), no node has seen anything, no
checkpoint taken yet. -/
def scenarioStart : EngineState where
  chans := [("A", .last (some 0)), ("B", .topic [])]
  versions := [("A", 1), ("B", 0)]
  seen := [("N1", [("A", 0)]), ("N2", [("B", 0)])]
  ckpts := []
  nextId := 1

/-! ## Checkpoint serialization

Modelled from the spec (§6, §8): the byte-level format is an external
concern, but round-trip fidelity of the checkpoint shape is the core's
contract.  The serialized value is a JSON-like tree; the Python fallback
`Checkpoint.to_json` is a placeholder returning `"{}"`, the production
serializer being part of the Rust extension. -/

/-- A JSON-like serialized value. -/
inductive JsonVal : Type
  | null
  | num (n : Int)
  | str (s : String)
  | arr (xs : List JsonVal)
  | obj (fields : List (String × JsonVal))

/-- Serialize a channel value. -/
def encChan : ChannelState → JsonVal
  | .last none => .obj [("last", .null)]
  | .last (some x) => .obj [("last", .num x)]
  | .topic xs => .obj [("topic", .arr (xs.map JsonVal.num))]

/-- Parse a list of integers. -/
def decIntList : List JsonVal → Option (List Int)
  | [] => some []
  | .num n :: rest => (decIntList rest).map (n :: ·)
  | _ => none

/-- Parse a channel value. -/
def decChan : JsonVal → Option ChannelState
  | .obj [("last", .null)] => some (.last none)
  | .obj [("last", .num x)] => some (.last (some x))
  | .obj [("topic", .arr js)] => (decIntList js).map ChannelState.topic
  | _ => none

/-- Serialize the `channel_values` table. -/
def encCV (l : List (String × ChannelState)) : List (String × JsonVal) :=
  l.map fun p => (p.1, encChan p.2)

/-- Parse the `channel_values` table. -/
def decCV : List (String × JsonVal) → Option (List (String × ChannelState))
  | [] => some []
  | (k, j) :: rest =>
    match decChan j with
    | some cs => (decCV rest).map ((k, cs) :: ·)
    | none => none

/-- Serialize a `channel_versions`-shaped table. -/
def encVers (l : List (String × Nat)) : List (String × JsonVal) :=
  l.map fun p => (p.1, JsonVal.num p.2)

/-- Parse a `channel_versions`-shaped table. -/
def decVers : List (String × JsonVal) → Option (List (String × Nat))
  | [] => some []
  | (k, .num n) :: rest => (decVers rest).map ((k, n.toNat) :: ·)
  | _ => none

/-- Serialize the `versions_seen` table. -/
def encSeen (l : List (String × List (String × Nat))) :
    List (String × JsonVal) :=
  l.map fun p => (p.1, JsonVal.obj (encVers p.2))

/-- Parse the `versions_seen` table. -/
def decSeen : List (String × JsonVal) →
    Option (List (String × List (String × Nat)))
  | [] => some []
  | (k, .obj fs) :: rest =>
    match decVers fs with
    | some vs => (decSeen rest).map ((k, vs) :: ·)
    | none => none
  | _ => none

/-- Parse a `parent_id` field. -/
def decParent : JsonVal → Option (Option Nat)
  | .null => some none
  | .num p => some (some p.toNat)
  | _ => none

/-- Modelled from the spec: serialize a checkpoint to the JSON shape of
§3. -/
def Checkpoint.to_json (c : Checkpoint) : JsonVal :=
  .obj
    [("id", .num c.id),
     ("parent_id", match c.parent_id with | none => .null | some p => .num p),
     ("channel_values", .obj (encCV c.channel_values)),
     ("channel_versions", .obj (encVers c.channel_versions)),
     ("versions_seen", .obj (encSeen c.versions_seen))]

/-- Modelled from the spec: parse a serialized checkpoint back, failing
on any malformed input. -/
def Checkpoint.from_json : JsonVal → Option Checkpoint
  | .obj
      [("id", .num i),
       ("parent_id", pj),
       ("channel_values", .obj cvs),
       ("channel_versions", .obj vers),
       ("versions_seen", .obj sns)] =>
    match decParent pj, decCV cvs, decVers vers, decSeen sns with
    | some p, some cv, some cvers, some sn =>
      some
        { id := i.toNat
          channel_values := cv
          channel_versions := cvers
          versions_seen := sn
          parent_id := p }
    | _, _, _, _ => none
  | _ => none

/-! ## The function-patching shim

Embedding of `src/fast_langgraph/shim.py`.  Python function objects are
identified by abstract ids (`Nat`); module attribute tables and the two
tracking dicts are association lists.  The dict key `f"{m}.{f}"` together
with `rsplit(".", 1)` recovers the pair `(m, f)` exactly (a Python
function name contains no dot), so the key is modelled as the pair
directly. -/

/-- The interpreter state the shim acts on: the set of importable
modules, `sys.modules`, every module's function-valued attributes, and
the shim's `_original_functions` and `_patched_functions` dicts. -/
structure ShimState : Type where
  available : List String
  sysModules : List String
  attrs : List ((String × String) × Nat)
  originalFunctions : List ((String × String) × Nat)
  patchedFunctions : List ((String × String) × Nat)
deriving DecidableEq, Repr

/-- `_patch_function(module_name, func_name, accelerator_factory)`: the
module is imported (recording it in `sys.modules`; an unimportable module
is skipped), the function checked to exist, the original stored in
`_original_functions`, install the accelerated version, track it in
`_patched_functions`, and report success. -/
def patchFunction (m f : String) (fac : Nat → Nat) (s : ShimState) :
    ShimState × Bool :=
  if m ∈ s.available then
    let s0 :=
      { s with
        sysModules :=
          if m ∈ s.sysModules then s.sysModules else m :: s.sysModules }
    match lookupAL s0.attrs (m, f) with
    | none => (s0, false)
    | some orig =>
      ({ s0 with
          originalFunctions := insertAL (m, f) orig s0.originalFunctions
          attrs := insertAL (m, f) (fac orig) s0.attrs
          patchedFunctions :=
            insertAL (m, f) (fac orig) s0.patchedFunctions },
        true)
  else (s, false)

/-- One iteration of the `unpatch_langgraph` loop: if the entry's module
is in `sys.modules` and still has the attribute, restore the recorded
original function. -/
def restoreStep (st : ShimState) (kv : (String × String) × Nat) : ShimState :=
  if kv.1.1 ∈ st.sysModules ∧ (lookupAL st.attrs kv.1).isSome then
    { st with attrs := insertAL kv.1 kv.2 st.attrs }
  else st

/-- `unpatch_langgraph()`: for every entry of `_original_functions`, if
the module is in `sys.modules` and still has the attribute, restore the
recorded original; then clear both tracking dicts and return `True`. -/
def unpatchLanggraph (s : ShimState) : ShimState × Bool :=
  let s' := s.originalFunctions.foldl restoreStep s
  ({ s' with originalFunctions := [], patchedFunctions := [] }, true)

/-- `is_patched()`: `len(_original_functions) > 0`. -/
def isPatched (s : ShimState) : Bool :=
  !s.originalFunctions.isEmpty

/-- `is_func_patched(module_name, func_name)`:
`f"{module_name}.{func_name}" in _original_functions`. -/
def isFuncPatched (m f : String) (s : ShimState) : Bool :=
  (lookupAL s.originalFunctions (m, f)).isSome

/-- The shim's state invariant: every recorded original belongs to a
module that is in `sys.modules` and still has the attribute, and the
recorded keys are distinct (they come from a Python dict). -/
def shimInv (s : ShimState) : Bool :=
  (s.originalFunctions.all fun kv =>
    decide (kv.1.1 ∈ s.sysModules) && (lookupAL s.attrs kv.1).isSome)
  && nodupKeysB s.originalFunctions

/-! ## Supporting lemmas -/

theorem update_value {V : Type} (c : LastValue V) (vs : List (Option V)) :
    (c.update vs).1.value = match vs with | [v] => v | _ => c.value := by
  cases vs with
  | nil => rfl
  | cons v t => cases t <;> rfl

theorem applyHistory_value {V : Type} (c : LastValue V)
    (h : List (List (Option V))) :
    (applyHistory c h).value = lastWriteFrom c.value h := by
  induction h generalizing c with
  | nil => rfl
  | cons vs rest ih =>
    rw [applyHistory, ih]
    cases vs with
    | nil => rfl
    | cons v t => cases t <;> rfl

/-! ## Claims about the `LastValue` channel -/

/-- C1 counterexample: on the channel holding prior value `0`, an update
with the single proposed entry `None` succeeds (`changed = true`), yet a
subsequent `get` raises `Empty` instead of returning the proposed entry
— refuting the claim that after a successful one-entry update `get`
returns exactly that entry. -/
theorem c1_counterexample :
    ((LastValue.mk (V := Nat) none "" (some 0)).update [none]).2
        = Except.ok true
      ∧ ((LastValue.mk (V := Nat) none "" (some 0)).update [none]).1.get
        = Except.error ChannelErr.empty :=
  ⟨rfl, rfl⟩

/-- C1 (amended): for a last-value channel and one superstep's proposed
values: two or more entries fail with `InvalidUpdate`; zero entries
succeed with `changed = false` and leave `get` at the prior value;
exactly one non-`None` entry succeeds and a subsequent `get` returns
exactly that entry; exactly one `None` entry succeeds but a subsequent
`get` fails with `Empty`, because the code marks emptiness by the stored
value being `None`. -/
theorem c1_last_value_arity {V : Type} (c : LastValue V)
    (vs : List (Option V)) :
    match vs with
    | [] => c.update vs = (c, Except.ok false) ∧ (c.update vs).1.get = c.get
    | [some w] =>
      (c.update vs).2 = Except.ok true ∧ (c.update vs).1.get = Except.ok w
    | [none] =>
      (c.update vs).2 = Except.ok true
        ∧ (c.update vs).1.get = Except.error ChannelErr.empty
    | _ :: _ :: _ => c.update vs = (c, Except.error ChannelErr.invalidUpdate) := by
  cases vs with
  | nil => exact ⟨rfl, rfl⟩
  | cons v t =>
    cases t with
    | nil => cases v <;> exact ⟨rfl, rfl⟩
    | cons w t' => cases v <;> rfl

/-- C2: an update with exactly one value stores that value (whether or
not it equals the prior one) and reports `changed = true`; an update
with zero values leaves the object untouched and reports
`changed = false`. -/
theorem c2_single_update_replaces {V : Type} (c : LastValue V)
    (v : Option V) :
    c.update [v] = ({ c with value := v }, Except.ok true)
      ∧ c.update [] = (c, Except.ok false) :=
  ⟨rfl, rfl⟩

/-- C3 counterexample: a never-written channel receives one successful
write (of `None`) and `get` still fails with `Empty` — refuting the
claim that `get` succeeds whenever the channel has ever received a
successful write. -/
theorem c3_counterexample :
    ((LastValue.fresh (V := Nat) none "").update [none]).2 = Except.ok true
      ∧ ((LastValue.fresh (V := Nat) none "").update [none]).1.get
        = Except.error ChannelErr.empty :=
  ⟨rfl, rfl⟩

/-- C3 (amended): over any history of `update` calls on a fresh channel,
`get` returns the value of the most recent successful one-entry write
when that value is not `None`, and fails with `Empty` exactly when there
was no such write or the most recent one wrote `None` — a write of
`None` is indistinguishable from the channel never having been
written. -/
theorem c3_get_after_history {V : Type} (h : List (List (Option V))) :
    (applyHistory (LastValue.fresh none "") h).get =
      match lastWrite h with
      | some w => Except.ok w
      | none => Except.error ChannelErr.empty := by
  have hv : (applyHistory (LastValue.fresh (V := V) none "") h).value
      = lastWrite h :=
    applyHistory_value _ h
  cases hw : lastWrite h with
  | none => simp [LastValue.get, hv, hw]
  | some w => simp [LastValue.get, hv, hw]

/-- C4: restoring a last-value channel from its own checkpoint output
preserves the stored value, hence `get` and `is_available` behave
identically on the restored channel. -/
theorem c4_checkpoint_roundtrip {V : Type} (c : LastValue V) :
    (LastValue.from_checkpoint c.checkpoint).get = c.get
      ∧ (LastValue.from_checkpoint c.checkpoint).is_available
        = c.is_available :=
  ⟨rfl, rfl⟩

/-- C8: `is_available` is true exactly when `get` succeeds; and after a
successful update with the single value `None`, `is_available` is false
and `get` fails with `Empty` even though the channel was written. -/
theorem c8_available_iff_get {V : Type} (c : LastValue V) :
    (c.is_available = true ↔ ∃ w, c.get = Except.ok w)
      ∧ (c.update [none]).2 = Except.ok true
      ∧ (c.update [none]).1.is_available = false
      ∧ (c.update [none]).1.get = Except.error ChannelErr.empty := by
  refine ⟨?_, rfl, rfl, rfl⟩
  cases hv : c.value with
  | none => simp [LastValue.is_available, LastValue.get, hv]
  | some v => simp [LastValue.is_available, LastValue.get, hv]

/-- C9: an `update` that raises `InvalidUpdate` leaves the object's
state — and hence subsequent `get` and `is_available` results — exactly
as they were before the failed call. -/
theorem c9_failed_update_unchanged {V : Type} (c : LastValue V)
    (vs : List (Option V))
    (h : (c.update vs).2 = Except.error ChannelErr.invalidUpdate) :
    (c.update vs).1 = c
      ∧ (c.update vs).1.get = c.get
      ∧ (c.update vs).1.is_available = c.is_available := by
  cases vs with
  | nil => exact absurd h (by simp [LastValue.update])
  | cons v t =>
    cases t with
    | nil => exact absurd h (by simp [LastValue.update])
    | cons w t' => exact ⟨rfl, rfl, rfl⟩

/-! ## Claims about checkpoint serialization -/

theorem decIntList_enc (xs : List Int) :
    decIntList (xs.map JsonVal.num) = some xs := by
  induction xs with
  | nil => rfl
  | cons x t ih => simp [decIntList, ih]

theorem decChan_enc (cs : ChannelState) : decChan (encChan cs) = some cs := by
  cases cs with
  | last v => cases v <;> rfl
  | topic xs => simp [encChan, decChan, decIntList_enc]

theorem decCV_enc (l : List (String × ChannelState)) :
    decCV (encCV l) = some l := by
  induction l with
  | nil => rfl
  | cons p t ih => simp [encCV, decCV, decChan_enc, ih] at ih ⊢

theorem decVers_enc (l : List (String × Nat)) :
    decVers (encVers l) = some l := by
  induction l with
  | nil => rfl
  | cons p t ih => simp [encVers, decVers, Int.toNat_natCast, ih] at ih ⊢

theorem decSeen_enc (l : List (String × List (String × Nat))) :
    decSeen (encSeen l) = some l := by
  induction l with
  | nil => rfl
  | cons p t ih => simp [encSeen, decSeen, decVers_enc, ih] at ih ⊢

/-- C5: serializing a checkpoint and parsing the result reproduces the
checkpoint exactly — in particular its `channel_values`,
`channel_versions` and `versions_seen` tables. -/
theorem c5_serialization_roundtrip (c : Checkpoint) :
    Checkpoint.from_json c.to_json = some c := by
  cases c with
  | mk i cv cvers sns par =>
    cases par <;>
      simp [Checkpoint.to_json, Checkpoint.from_json, decParent,
        decCV_enc, decVers_enc, decSeen_enc, Int.toNat_natCast]

/-! ## Claims about the executor and its checkpoints -/

theorem superstep_ok_shape {g : PGraph} {st st' : EngineState}
    (h : superstep g st = .ok st') :
    st'.ckpts
        = { id := st.nextId
            channel_values := st'.chans
            channel_versions := st'.versions
            versions_seen := st'.seen
            parent_id := st.ckpts.head?.map (·.id) } :: st.ckpts
      ∧ st'.nextId = st.nextId + 1 := by
  unfold superstep at h
  dsimp only at h
  split at h
  · exact Except.noConfusion h
  · injection h with h
    subst h
    exact ⟨rfl, rfl⟩

theorem superstep_idChainInv {g : PGraph} {st st' : EngineState}
    (h : superstep g st = .ok st') (hinv : idChainInv st = true) :
    idChainInv st' = true := by
  obtain ⟨hc, hn⟩ := superstep_ok_shape h
  unfold idChainInv at hinv ⊢
  rw [hc, hn]
  cases hck : st.ckpts with
  | nil => simp [ckptChainOk, hck]
  | cons d rest =>
    rw [hck] at hinv
    simp only [ckptChainOk, hck, Bool.and_eq_true, decide_eq_true_eq] at hinv ⊢
    exact ⟨⟨⟨rfl, hinv.2⟩, hinv.1⟩, Nat.lt_succ_self _⟩

theorem runSteps_idChainInv (g : PGraph) :
    ∀ (n : Nat) (st : EngineState), idChainInv st = true →
      idChainInv (runSteps g st n) = true := by
  intro n
  induction n with
  | zero => exact fun st h => h
  | succ n ih =>
    intro st h
    rw [runSteps]
    split
    · exact h
    · cases hs : superstep g st with
      | ok st' => exact ih st' (superstep_idChainInv hs h)
      | error e => exact h

/-- C6 counterexample: running the §8 scenario for 3 supersteps leaves
`A = 1` (not `A = 2` as claimed): superstep 1 runs `N1` (`B = [1]`),
superstep 2 runs `N2` (`A = 1`), superstep 3 runs `N1` again
(`B = [1, 2]`), and `A` is only advanced to `2` by `N2` in a fourth
superstep. -/
theorem c6_counterexample :
    lookupAL (runSteps scenarioGraph scenarioStart 3).chans "A"
        = some (ChannelState.last (some 1))
      ∧ lookupAL (runSteps scenarioGraph scenarioStart 3).chans "B"
        = some (ChannelState.topic [1, 2]) :=
  ⟨rfl, rfl⟩

/-- C6 (amended): running the §8 scenario for 4 supersteps yields
`A = 2` and `B = [1, 2]` (after 3 supersteps `A = 1`, `B = [1, 2]`), and
a step limit of 2 halts with `StepLimitExceeded` whose latest checkpoint
shows `A = 1`, `B = [1]`. -/
theorem c6_scenario_execution :
    lookupAL (runSteps scenarioGraph scenarioStart 4).chans "A"
        = some (ChannelState.last (some 2))
      ∧ lookupAL (runSteps scenarioGraph scenarioStart 4).chans "B"
        = some (ChannelState.topic [1, 2])
      ∧ isStepLimit (invoke scenarioGraph scenarioStart 2) = true
      ∧ (outState (invoke scenarioGraph scenarioStart 2)).ckpts.head?.map
          (fun ck => (lookupAL ck.channel_values "A",
                      lookupAL ck.channel_values "B"))
        = some (some (ChannelState.last (some 1)),
                some (ChannelState.topic [1])) :=
  ⟨rfl, rfl, rfl, rfl⟩

/-- C7: every checkpoint carries the three bookkeeping tables together
with a sequence id and an optional parent id (fields of `Checkpoint`),
and in any run started without prior checkpoints the emitted checkpoint
history has strictly increasing ids, each checkpoint's `parent_id` being
the id of the checkpoint it was derived from (`none` for the first). -/
theorem c7_checkpoint_identity (g : PGraph) (st : EngineState) (n : Nat)
    (h : st.ckpts = []) :
    ckptChainOk (runSteps g st n).ckpts = true := by
  have hinv : idChainInv st = true := by
    unfold idChainInv
    rw [h]
    rfl
  have h2 := runSteps_idChainInv g n st hinv
  unfold idChainInv at h2
  simp only [Bool.and_eq_true] at h2
  exact h2.1

/-- Witness for C7: the scenario run of 3 supersteps emits the
checkpoint chain ids `1 ← 2 ← 3`. -/
theorem c7_witness :
    ckptChainOk (runSteps scenarioGraph scenarioStart 3).ckpts = true :=
  c7_checkpoint_identity scenarioGraph scenarioStart 3 rfl

/-- Witness for C9 at the channel holding `3` and the two-entry write
`[1, 2]`. -/
theorem c9_witness :
    ((LastValue.mk (V := Nat) none "" (some 3)).update
        [some 1, some 2]).1 = LastValue.mk (V := Nat) none "" (some 3)
      ∧ ((LastValue.mk (V := Nat) none "" (some 3)).update
          [some 1, some 2]).1.get
        = (LastValue.mk (V := Nat) none "" (some 3)).get
      ∧ ((LastValue.mk (V := Nat) none "" (some 3)).update
          [some 1, some 2]).1.is_available
        = (LastValue.mk (V := Nat) none "" (some 3)).is_available :=
  c9_failed_update_unchanged (LastValue.mk none "" (some 3))
    [some 1, some 2] rfl

/-! ## Claims about the function-patching shim -/

theorem lookup_eraseKey_self {κ ν : Type} [DecidableEq κ]
    (l : List (κ × ν)) (k : κ) : lookupAL (eraseKey l k) k = none := by
  induction l with
  | nil => rfl
  | cons kv t ih =>
    by_cases h : kv.1 = k
    · simp [eraseKey, h, ih]
    · simp [eraseKey, lookupAL, h, ih]

theorem lookup_eraseKey_ne {κ ν : Type} [DecidableEq κ]
    (l : List (κ × ν)) (k k' : κ) (h : k' ≠ k) :
    lookupAL (eraseKey l k) k' = lookupAL l k' := by
  induction l with
  | nil => rfl
  | cons kv t ih =>
    by_cases hk : kv.1 = k
    · have hne : ¬kv.1 = k' := fun he => h (he.symm.trans hk)
      rw [eraseKey, if_pos hk, ih, lookupAL, if_neg hne]
    · simp only [eraseKey, if_neg hk, lookupAL, ih]

theorem lookup_insert_self {κ ν : Type} [DecidableEq κ]
    (l : List (κ × ν)) (k : κ) (v : ν) :
    lookupAL (insertAL k v l) k = some v := by
  simp [insertAL, lookupAL]

theorem lookup_insert_ne {κ ν : Type} [DecidableEq κ]
    (l : List (κ × ν)) (k k' : κ) (v : ν) (h : k' ≠ k) :
    lookupAL (insertAL k v l) k' = lookupAL l k' := by
  have : k ≠ k' := fun he => h he.symm
  simp [insertAL, lookupAL, this, lookup_eraseKey_ne l k k' h]

theorem lookup_mem {κ ν : Type} [DecidableEq κ]
    {l : List (κ × ν)} {k : κ} {v : ν} (h : lookupAL l k = some v) :
    (k, v) ∈ l := by
  induction l with
  | nil => exact absurd h (by simp [lookupAL])
  | cons kv t ih =>
    by_cases hk : kv.1 = k
    · rw [lookupAL, if_pos hk] at h
      injection h with h
      have hkv : kv = (k, v) := by rw [← hk, ← h]
      rw [hkv]
      exact List.mem_cons_self _ _
    · rw [lookupAL, if_neg hk] at h
      exact List.mem_cons_of_mem _ (ih h)

theorem mem_eraseKey {κ ν : Type} [DecidableEq κ]
    {l : List (κ × ν)} {k : κ} {kv : κ × ν} (h : kv ∈ eraseKey l k) :
    kv ∈ l ∧ kv.1 ≠ k := by
  induction l with
  | nil => exact absurd h (by simp [eraseKey])
  | cons kv' t ih =>
    by_cases hk : kv'.1 = k
    · rw [eraseKey, if_pos hk] at h
      exact ⟨List.mem_cons_of_mem _ (ih h).1, (ih h).2⟩
    · rw [eraseKey, if_neg hk] at h
      rcases List.mem_cons.mp h with he | ht
      · exact ⟨he ▸ List.mem_cons_self _ _, he ▸ hk⟩
      · exact ⟨List.mem_cons_of_mem _ (ih ht).1, (ih ht).2⟩

theorem lookup_eraseKey_none {κ ν : Type} [DecidableEq κ]
    (l : List (κ × ν)) (k k' : κ) (h : lookupAL l k' = none) :
    lookupAL (eraseKey l k) k' = none := by
  by_cases he : k' = k
  · rw [he]
    exact lookup_eraseKey_self l k
  · rw [lookup_eraseKey_ne l k k' he]
    exact h

theorem nodup_eraseKey {κ ν : Type} [DecidableEq κ]
    (l : List (κ × ν)) (k : κ) (h : nodupKeysB l = true) :
    nodupKeysB (eraseKey l k) = true := by
  induction l with
  | nil => rfl
  | cons kv t ih =>
    rw [nodupKeysB, Bool.and_eq_true] at h
    by_cases hk : kv.1 = k
    · rw [eraseKey, if_pos hk]
      exact ih h.2
    · rw [eraseKey, if_neg hk, nodupKeysB, Bool.and_eq_true]
      refine ⟨?_, ih h.2⟩
      rw [lookup_eraseKey_none t k kv.1 (Option.isNone_iff_eq_none.mp h.1)]
      rfl

theorem nodup_insert {κ ν : Type} [DecidableEq κ]
    (l : List (κ × ν)) (k : κ) (v : ν) (h : nodupKeysB l = true) :
    nodupKeysB (insertAL k v l) = true := by
  rw [insertAL, nodupKeysB, Bool.and_eq_true]
  refine ⟨?_, nodup_eraseKey l k h⟩
  rw [lookup_eraseKey_self l k]
  rfl

theorem restore_foldl (l : List ((String × String) × Nat)) :
    ∀ st : ShimState,
      nodupKeysB l = true →
      (∀ kv ∈ l, kv.1.1 ∈ st.sysModules
        ∧ (lookupAL st.attrs kv.1).isSome = true) →
      (∀ kv ∈ l, lookupAL (l.foldl restoreStep st).attrs kv.1 = some kv.2)
        ∧ (∀ k, lookupAL l k = none →
            lookupAL (l.foldl restoreStep st).attrs k = lookupAL st.attrs k)
        ∧ (l.foldl restoreStep st).sysModules = st.sysModules
        ∧ (l.foldl restoreStep st).originalFunctions
          = st.originalFunctions := by
  induction l with
  | nil =>
    intro st _ _
    exact ⟨fun kv hkv => absurd hkv (List.not_mem_nil kv),
      fun k _ => rfl, rfl, rfl⟩
  | cons kv t ih =>
    intro st hnd hc
    rw [nodupKeysB, Bool.and_eq_true] at hnd
    have hnone : lookupAL t kv.1 = none :=
      Option.isNone_iff_eq_none.mp hnd.1
    have hcond := hc kv (List.mem_cons_self _ _)
    have hfold : List.foldl restoreStep st (kv :: t)
        = List.foldl restoreStep
            { st with attrs := insertAL kv.1 kv.2 st.attrs } t := by
      rw [List.foldl_cons]
      congr 1
      rw [restoreStep, if_pos ⟨hcond.1, hcond.2⟩]
    have hc1 : ∀ kv' ∈ t,
        kv'.1.1 ∈ ({ st with attrs := insertAL kv.1 kv.2 st.attrs }
            : ShimState).sysModules
          ∧ (lookupAL ({ st with attrs := insertAL kv.1 kv.2 st.attrs }
              : ShimState).attrs kv'.1).isSome = true := by
      intro kv' hkv'
      refine ⟨(hc kv' (List.mem_cons_of_mem _ hkv')).1, ?_⟩
      by_cases hkk : kv'.1 = kv.1
      · rw [hkk]
        rw [lookup_insert_self]
        rfl
      · rw [lookup_insert_ne _ _ _ _ hkk]
        exact (hc kv' (List.mem_cons_of_mem _ hkv')).2
    obtain ⟨ih1, ih2, ih3, ih4⟩ :=
      ih { st with attrs := insertAL kv.1 kv.2 st.attrs } hnd.2 hc1
    refine ⟨?_, ?_, ?_, ?_⟩
    · intro kv' hkv'
      rcases List.mem_cons.mp hkv' with he | ht
      · rw [he, hfold, ih2 kv.1 hnone, lookup_insert_self]
      · rw [hfold]
        exact ih1 kv' ht
    · intro k hk
      have hne : ¬kv.1 = k := by
        intro he
        rw [lookupAL, if_pos he] at hk
        exact Option.noConfusion hk
      have htk : lookupAL t k = none := by
        rw [lookupAL, if_neg hne] at hk
        exact hk
      rw [hfold, ih2 k htk, lookup_insert_ne _ _ _ _ (fun he => hne he.symm)]
    · rw [hfold]
      exact ih3
    · rw [hfold]
      exact ih4

/-- C10: a successful `_patch_function` followed by `unpatch_langgraph`
is the identity on the patched module's attribute table: every function
recorded in `_original_functions` is restored into its module exactly,
and afterwards `is_patched()` is false and `is_func_patched(m, f)` is
false for every module and function name. -/
theorem c10_patch_unpatch_identity (s : ShimState) (m f : String)
    (fac : Nat → Nat)
    (hinv : shimInv s = true)
    (hsucc : (patchFunction m f fac s).2 = true) :
    lookupAL (unpatchLanggraph (patchFunction m f fac s).1).1.attrs (m, f)
        = lookupAL s.attrs (m, f)
      ∧ (∀ k g,
          lookupAL (patchFunction m f fac s).1.originalFunctions k = some g →
          lookupAL (unpatchLanggraph (patchFunction m f fac s).1).1.attrs k
            = some g)
      ∧ isPatched (unpatchLanggraph (patchFunction m f fac s).1).1 = false
      ∧ ∀ m' f',
          isFuncPatched m' f'
            (unpatchLanggraph (patchFunction m f fac s).1).1 = false := by
  simp only [shimInv, Bool.and_eq_true, List.all_eq_true,
    decide_eq_true_eq] at hinv
  obtain ⟨hall, hnd⟩ := hinv
  by_cases hm : m ∈ s.available
  · cases hA : lookupAL s.attrs (m, f) with
    | none =>
      exfalso
      simp [patchFunction, hm, hA] at hsucc
    | some orig =>
      have hps : patchFunction m f fac s =
          ({ available := s.available
             sysModules :=
               if m ∈ s.sysModules then s.sysModules else m :: s.sysModules
             attrs := insertAL (m, f) (fac orig) s.attrs
             originalFunctions := insertAL (m, f) orig s.originalFunctions
             patchedFunctions :=
               insertAL (m, f) (fac orig) s.patchedFunctions }, true) := by
        simp [patchFunction, hm, hA]
      rw [hps]
      have hnd1 : nodupKeysB (insertAL (m, f) orig s.originalFunctions)
          = true := nodup_insert _ _ _ hnd
      have hc1 : ∀ kv ∈ insertAL (m, f) orig s.originalFunctions,
          kv.1.1 ∈ (if m ∈ s.sysModules then s.sysModules
            else m :: s.sysModules)
          ∧ (lookupAL (insertAL (m, f) (fac orig) s.attrs) kv.1).isSome
            = true := by
        intro kv hkv
        rcases List.mem_cons.mp hkv with he | ht
        · refine ⟨?_, ?_⟩
          · rw [he]
            by_cases hms : m ∈ s.sysModules
            · rw [if_pos hms]
              exact hms
            · rw [if_neg hms]
              exact List.mem_cons_self _ _
          · rw [he, lookup_insert_self]
            rfl
        · obtain ⟨hmem, hne⟩ := mem_eraseKey ht
          refine ⟨?_, ?_⟩
          · have := (hall kv hmem).1
            by_cases hms : m ∈ s.sysModules
            · rw [if_pos hms]
              exact this
            · rw [if_neg hms]
              exact List.mem_cons_of_mem _ this
          · rw [lookup_insert_ne _ _ _ _ hne]
            exact (hall kv hmem).2
      obtain ⟨hf1, hf2, _, _⟩ :=
        restore_foldl (insertAL (m, f) orig s.originalFunctions)
          { available := s.available
            sysModules :=
              if m ∈ s.sysModules then s.sysModules else m :: s.sysModules
            attrs := insertAL (m, f) (fac orig) s.attrs
            originalFunctions := insertAL (m, f) orig s.originalFunctions
            patchedFunctions :=
              insertAL (m, f) (fac orig) s.patchedFunctions }
          hnd1 hc1
      refine ⟨?_, ?_, ?_, ?_⟩
      · have := hf1 ((m, f), orig) (List.mem_cons_self _ _)
        rw [unpatchLanggraph]
        rw [this]
      · intro k g hkg
        have hmem : (k, g) ∈ insertAL (m, f) orig s.originalFunctions :=
          lookup_mem hkg
        have := hf1 (k, g) hmem
        rw [unpatchLanggraph]
        exact this
      · rw [unpatchLanggraph, isPatched]
        rfl
      · intro m' f'
        rw [unpatchLanggraph, isFuncPatched]
        rfl
  · exfalso
    simp [patchFunction, hm] at hsucc

/-- Witness for C10: patching function `f` (id `7`) of module `m` and
unpatching restores the attribute table and clears all patch
bookkeeping. -/
theorem c10_witness :
    lookupAL (unpatchLanggraph (patchFunction "m" "f" (fun g => g + 1)
        ⟨["m"], [], [(("m", "f"), 7)], [], []⟩).1).1.attrs ("m", "f")
      = some 7
    ∧ isPatched (unpatchLanggraph (patchFunction "m" "f" (fun g => g + 1)
        ⟨["m"], [], [(("m", "f"), 7)], [], []⟩).1).1 = false
    ∧ isFuncPatched "m" "f"
        (unpatchLanggraph (patchFunction "m" "f" (fun g => g + 1)
          ⟨["m"], [], [(("m", "f"), 7)], [], []⟩).1).1 = false := by
  have h := c10_patch_unpatch_identity
    ⟨["m"], [], [(("m", "f"), 7)], [], []⟩ "m" "f" (fun g => g + 1)
    rfl rfl
  exact ⟨h.1.trans rfl, h.2.2.1, h.2.2.2 "m" "f"⟩
